import Mathlib

/-!
Verification of the port-to-process resolution and caching engine.

The definitions below are a shallow embedding of the Rust sources:
`src/port/incremental.rs`, `src/port/adaptive.rs`, `src/port/procfs.rs`
and `src/port/mod.rs`.  Machine integers are modelled as `Nat` (no
arithmetic in the embedded code can overflow its Rust type except where
an explicit range check is modelled), `Instant`/`Duration` values as
`Nat` tick counts, `HashMap` as an association list with insert-replace
semantics, and fallible operations as `Except Unit`.  External I/O
(subprocess output, pseudo-file contents, clocks) is passed in as
explicit parameters.
-/

namespace Kilar

/-- One observed socket-to-process binding (`ProcessInfo` in `src/port/mod.rs`). -/
structure ProcessInfo where
  pid : Nat
  name : String
  command : String
  executable_path : String
  working_directory : String
  port : Nat
  protocol : String
  address : String
  inode : Option Nat
deriving DecidableEq, Repr, Inhabited

/-- Kind of a change-log entry (`ChangeType` in `src/port/incremental.rs`). -/
inductive ChangeType where
  | Added
  | Removed
  | Modified
deriving DecidableEq, Repr, Inhabited

/-- A change-log entry (`PortChange` in `src/port/incremental.rs`); the
`Instant` timestamp is modelled as a `Nat` tick count. -/
structure PortChange where
  timestamp : Nat
  change_type : ChangeType
  process_info : ProcessInfo
deriving DecidableEq, Repr, Inhabited

/-- Association-list model of Rust `HashMap`: lookup of a key. -/
def alLookup {α β : Type} [DecidableEq α] : List (α × β) → α → Option β
  | [], _ => none
  | (k', v) :: rest, k => if k' = k then some v else alLookup rest k

/-- Association-list model of Rust `HashMap::insert`: replace in place or append. -/
def alInsert {α β : Type} [DecidableEq α] : List (α × β) → α → β → List (α × β)
  | [], k, v => [(k, v)]
  | (k', v') :: rest, k, v =>
    if k' = k then (k, v) :: rest else (k', v') :: alInsert rest k v

/-- Association-list model of Rust `HashMap::remove`. -/
def alErase {α β : Type} [DecidableEq α] : List (α × β) → α → List (α × β)
  | [], _ => []
  | (k', v') :: rest, k => if k' = k then rest else (k', v') :: alErase rest k

/-- The key list of an association-list map. -/
def alKeys {α β : Type} (m : List (α × β)) : List α := m.map Prod.fst

/-- `old_processes.iter().map(|p| (p.port, p)).collect::<HashMap<_,_>>()`:
a port-keyed map built by successive inserts (later duplicates overwrite). -/
def portMap (ps : List ProcessInfo) : List (Nat × ProcessInfo) :=
  ps.foldl (fun m p => alInsert m p.port p) []

/-- `IncrementalPortManager::process_changed`. -/
def process_changed (old new : ProcessInfo) : Bool :=
  decide (old.pid ≠ new.pid) || decide (old.name ≠ new.name)
    || decide (old.command ≠ new.command)
    || decide (old.executable_path ≠ new.executable_path)

/-- `IncrementalPortManager::compute_changes`; `now` is the single timestamp
taken at the top of the function. -/
def compute_changes (now : Nat) (old_processes new_processes : List ProcessInfo) :
    List PortChange :=
  let old_map := portMap old_processes
  let new_map := portMap new_processes
  let added := new_map.filterMap fun e =>
    if (alLookup old_map e.1).isNone then
      some ⟨now, ChangeType.Added, e.2⟩
    else none
  let removed := old_map.filterMap fun e =>
    if (alLookup new_map e.1).isNone then
      some ⟨now, ChangeType.Removed, e.2⟩
    else none
  let modified := new_map.filterMap fun e =>
    match alLookup old_map e.1 with
    | some old_p =>
      if process_changed old_p e.2 then
        some ⟨now, ChangeType.Modified, e.2⟩
      else none
    | none => none
  added ++ removed ++ modified

/-- Number of change events of kind `t` at port `p` in a change list. -/
def eventCount (cs : List PortChange) (t : ChangeType) (p : Nat) : Nat :=
  cs.countP fun c => decide (c.change_type = t) && decide (c.process_info.port = p)

/-- Whether the port-keyed maps of `old` and `new` both hold port `p` with
records whose pid, name, command or executable path differ. -/
def modifiedAt (old new : List ProcessInfo) (p : Nat) : Bool :=
  match alLookup (portMap old) p, alLookup (portMap new) p with
  | some old_p, some new_p => process_changed old_p new_p
  | _, _ => false

/-! ### Text primitives shared by the parsers -/

/-- Accumulating word splitter over characters: `acc` holds the reversed
current word. -/
def splitWSAux : List Char → List Char → List (List Char)
  | [], acc => if acc.isEmpty then [] else [acc.reverse]
  | c :: rest, acc =>
    if c.isWhitespace then
      if acc.isEmpty then splitWSAux rest []
      else acc.reverse :: splitWSAux rest []
    else splitWSAux rest (c :: acc)

/-- Rust `str::split_whitespace`: split on whitespace, dropping empty pieces. -/
def splitWhitespace (s : String) : List String :=
  (splitWSAux s.toList []).map fun cs => String.mk cs

/-- Split a character list on a separator character; always nonempty, keeps
empty pieces. -/
def splitOnChar (sep : Char) : List Char → List (List Char)
  | [] => [[]]
  | c :: rest =>
    let r := splitOnChar sep rest
    if c = sep then [] :: r
    else
      match r with
      | h :: t => (c :: h) :: t
      | [] => [[c]]

/-- Rust `str::lines`: split on a newline, dropping one final empty piece and
stripping one trailing carriage return per line. -/
def rustLines (s : String) : List String :=
  let pieces := splitOnChar '\n' s.toList
  let pieces := if pieces.getLast? = some [] then pieces.dropLast else pieces
  pieces.map fun cs =>
    String.mk (if cs.getLast? = some '\r' then cs.dropLast else cs)

/-- Rust `char::to_digit(radix)`. -/
def charDigit (radix : Nat) (c : Char) : Option Nat :=
  let n := c.toNat
  let v :=
    if 48 ≤ n ∧ n ≤ 57 then some (n - 48)
    else if 97 ≤ n ∧ n ≤ 122 then some (n - 87)
    else if 65 ≤ n ∧ n ≤ 90 then some (n - 55)
    else none
  match v with
  | some d => if d < radix then some d else none
  | none => none

/-- Accumulate digits of a numeral left to right; `none` on a non-digit. -/
def foldDigits (radix : Nat) (acc : Nat) : List Char → Option Nat
  | [] => some acc
  | c :: rest =>
    match charDigit radix c with
    | some d => foldDigits radix (acc * radix + d) rest
    | none => none

/-- Rust `uN::from_str_radix` / `str::parse::<uN>`: an optional sign followed
by a nonempty digit string; overflow beyond `max` is an error, and a minus
sign underflows unless the value is zero. -/
def rustParseUnsigned (radix max : Nat) (cs : List Char) : Option Nat :=
  let signed : Bool × List Char :=
    match cs with
    | c :: rest =>
      if c = '+' then (false, rest)
      else if c = '-' then (true, rest)
      else (false, cs)
    | [] => (false, cs)
  let negative := signed.1
  let digits := signed.2
  if digits.isEmpty then none
  else
    match foldDigits radix 0 digits with
    | some v =>
      if v > max then none
      else if negative ∧ v ≠ 0 then none
      else some v
    | none => none

/-! ### Kernel-table (procfs) parsing, `src/port/procfs.rs` -/

/-- `ProcfsPortManager::parse_ipv4_address`.  The Rust input is a byte slice
of the table text; it is modelled as the character list of that slice. -/
def parse_ipv4_address (hex : List Char) : String :=
  if hex.length ≠ 8 then "*"
  else
    let bytes := (List.range 4).map fun i =>
      (rustParseUnsigned 16 255 ((hex.drop (i * 2)).take 2)).getD 0
    if bytes = [0, 0, 0, 0] then "*"
    else
      toString (bytes.getD 3 0) ++ "." ++ toString (bytes.getD 2 0) ++ "." ++
        toString (bytes.getD 1 0) ++ "." ++ toString (bytes.getD 0 0)

/-- Specification-side reading of an 8-character hex address field: the value
of the whole field as one base-16 numeral (digits most-significant first, as
written in the table).  Used to state that `parse_ipv4_address` renders the
four bytes of this value in reversed (little-endian) byte order. -/
def hexNatVal (cs : List Char) : Nat :=
  cs.foldl (fun acc c => acc * 16 + (charDigit 16 c).getD 0) 0

/-- `ProcfsPortManager::parse_ipv6_address`.  The length and all-zero checks
are from the source; the final rendering delegates to the standard library
(`Ipv6Addr::to_string`), which is outside this repository.  Modelled from the
spec: the 32 hex characters are "mapped directly to a 16-byte address"; the
rendering here writes the eight 16-bit groups separated by colons.  No claim
depends on the rendered text. -/
def parse_ipv6_address (hex : List Char) : String :=
  if hex.length ≠ 32 then "*"
  else if hex = "00000000000000000000000000000000".toList then "*"
  else
    String.intercalate ":"
      ((List.range 8).map fun i => String.mk ((hex.drop (i * 4)).take 4))

/-- Rust `str::rfind(':')` followed by slicing around the found index:
returns the text before and after the last colon. -/
def rfindColonSplit (s : List Char) : Option (List Char × List Char) :=
  match (s.reverse.findIdx? fun c => c = ':') with
  | none => none
  | some j =>
    let i := s.length - 1 - j
    some (s.take i, s.drop (i + 1))

/-- `ProcfsPortManager::parse_address`. -/
def parse_address (address_port : List Char) (is_ipv6 : Bool) : Option (String × Nat) :=
  match rfindColonSplit address_port with
  | none => none
  | some (address_hex, port_hex) =>
    match rustParseUnsigned 16 65535 port_hex with
    | none => none
    | some port =>
      let address :=
        if is_ipv6 then parse_ipv6_address address_hex else parse_ipv4_address address_hex
      some (address, port)

/-- Loop body of `ProcfsPortManager::parse_tcp_content`: the record a single
table line contributes, or `none` when the line is skipped. -/
def tcpLineRecord (is_ipv6 : Bool) (line : String) : Option ProcessInfo :=
  let parts := splitWhitespace line
  if parts.length < 10 then none
  else
    let local_address := parts.getD 1 ""
    let state := parts.getD 3 ""
    let inode := parts.getD 9 ""
    match parse_address local_address.toList is_ipv6 with
    | some (address, port) =>
      if state = "0A" then
        match rustParseUnsigned 10 18446744073709551615 inode.toList with
        | some inode_num =>
          some ⟨0, "", "", "", "", port, "tcp", address, some inode_num⟩
        | none => none
      else none
    | none => none

/-- `ProcfsPortManager::parse_tcp_content`: every line after the header is
run through the loop body; the function itself always returns `Ok`. -/
def parse_tcp_content (content : String) (is_ipv6 : Bool) : Except Unit (List ProcessInfo) :=
  Except.ok (((rustLines content).drop 1).filterMap (tcpLineRecord is_ipv6))

/-- Loop body of `ProcfsPortManager::parse_udp_content` (no state filter). -/
def udpLineRecord (is_ipv6 : Bool) (line : String) : Option ProcessInfo :=
  let parts := splitWhitespace line
  if parts.length < 10 then none
  else
    let local_address := parts.getD 1 ""
    let inode := parts.getD 9 ""
    match parse_address local_address.toList is_ipv6 with
    | some (address, port) =>
      match rustParseUnsigned 10 18446744073709551615 inode.toList with
      | some inode_num =>
        some ⟨0, "", "", "", "", port, "udp", address, some inode_num⟩
      | none => none
    | none => none

/-- `ProcfsPortManager::parse_udp_content`. -/
def parse_udp_content (content : String) (is_ipv6 : Bool) : Except Unit (List ProcessInfo) :=
  Except.ok (((rustLines content).drop 1).filterMap (udpLineRecord is_ipv6))

/-! ### Kernel-table resolver state and enrichment, `src/port/procfs.rs` -/

/-- Cached per-pid details (`ProcessDetails` in `src/port/procfs.rs`). -/
structure ProcessDetails where
  name : String
  command : String
  executable_path : String
  working_directory : String
deriving DecidableEq, Repr, Inhabited

/-- Mutable state of `ProcfsPortManager` (timestamps as `Nat` ticks). -/
structure ProcfsState where
  pid_cache : List (Nat × ProcessDetails)
  last_update : Nat
  cache_ttl : Nat
deriving DecidableEq, Repr, Inhabited

/-- `ProcfsPortManager::clear_cache`: empty the pid cache and back-date the
last-update instant by one TTL. -/
def procfs_clear_cache (s : ProcfsState) (now : Nat) : ProcfsState :=
  { pid_cache := [], last_update := now - s.cache_ttl, cache_ttl := s.cache_ttl }

/-- The collected file contents of the four network tables; `none` models a
failed `read_to_string` (tolerated as zero entries). -/
structure ProcfsFiles where
  tcp4 : Option String
  tcp6 : Option String
  udp4 : Option String
  udp6 : Option String

/-- `ProcfsPortManager::is_listening_connection` (always true; TCP was
filtered by state already, UDP has no state filter). -/
def is_listening_connection (_p : ProcessInfo) : Bool := true

/-- `ProcfsPortManager::read_tcp_connections`: a missing table file is
tolerated as zero entries; a parse error propagates via `?`. -/
def read_tcp_connections (files : ProcfsFiles) : Except Unit (List ProcessInfo) :=
  match (match files.tcp4 with
         | some content => parse_tcp_content content false
         | none => Except.ok []) with
  | Except.error e => Except.error e
  | Except.ok ps1 =>
    match (match files.tcp6 with
           | some content => parse_tcp_content content true
           | none => Except.ok []) with
    | Except.error e => Except.error e
    | Except.ok ps2 =>
      Except.ok ((ps1 ++ ps2).filter fun p => is_listening_connection p)

/-- `ProcfsPortManager::read_udp_connections`. -/
def read_udp_connections (files : ProcfsFiles) : Except Unit (List ProcessInfo) :=
  match (match files.udp4 with
         | some content => parse_udp_content content false
         | none => Except.ok []) with
  | Except.error e => Except.error e
  | Except.ok ps1 =>
    match (match files.udp6 with
           | some content => parse_udp_content content true
           | none => Except.ok []) with
    | Except.error e => Except.error e
    | Except.ok ps2 => Except.ok (ps1 ++ ps2)

/-- `ProcfsPortManager::update_process_details`.  `readDetails` abstracts
`read_process_details` (pure reads of `/proc/<pid>/…`, which always return
`Ok`). -/
def update_process_details (s : ProcfsState) (readDetails : Nat → ProcessDetails)
    (now : Nat) (p : ProcessInfo) : ProcfsState × ProcessInfo :=
  let cached :=
    if now - s.last_update < s.cache_ttl then alLookup s.pid_cache p.pid else none
  match cached with
  | some d =>
    (s, { p with
          name := d.name, command := d.command,
          executable_path := d.executable_path, working_directory := d.working_directory })
  | none =>
    let d := readDetails p.pid
    ({ s with pid_cache := alInsert s.pid_cache p.pid d, last_update := now },
     { p with
       name := d.name, command := d.command,
       executable_path := d.executable_path, working_directory := d.working_directory })

/-- Loop body of `ProcfsPortManager::enrich_with_process_info`: fill in the
pid found by the inode join (if any) and resolve that process's details. -/
def enrichStep (inode_to_pid : List (Nat × Nat)) (readDetails : Nat → ProcessDetails)
    (now : Nat) (acc : ProcfsState × List ProcessInfo) (p : ProcessInfo) :
    ProcfsState × List ProcessInfo :=
  match p.inode with
  | some inode =>
    match alLookup inode_to_pid inode with
    | some pid =>
      let r := update_process_details acc.1 readDetails now { p with pid := pid }
      (r.1, acc.2 ++ [r.2])
    | none => (acc.1, acc.2 ++ [p])
  | none => (acc.1, acc.2 ++ [p])

/-- `ProcfsPortManager::enrich_with_process_info`.  `inode_to_pid` is the
inode-to-pid map collected by the `/proc/*/fd` scan (an external input). -/
def enrich_with_process_info (s : ProcfsState) (inode_to_pid : List (Nat × Nat))
    (readDetails : Nat → ProcessDetails) (now : Nat) (ps : List ProcessInfo) :
    ProcfsState × List ProcessInfo :=
  let r := ps.foldl (enrichStep inode_to_pid readDetails now) (s, [])
  (r.1, r.2.filter fun p => p.pid != 0)

/-- `ProcfsPortManager::list_processes`. -/
def procfs_list_processes (s : ProcfsState) (files : ProcfsFiles)
    (inode_to_pid : List (Nat × Nat)) (readDetails : Nat → ProcessDetails)
    (now : Nat) (protocol : String) : Except Unit (ProcfsState × List ProcessInfo) :=
  match (if protocol = "tcp" ∨ protocol = "all" then read_tcp_connections files
         else Except.ok []) with
  | Except.error e => Except.error e
  | Except.ok tcp =>
    match (if protocol = "udp" ∨ protocol = "all" then read_udp_connections files
           else Except.ok []) with
    | Except.error e => Except.error e
    | Except.ok udp =>
      Except.ok (enrich_with_process_info s inode_to_pid readDetails now (tcp ++ udp))

/-! ### Tool-chain resolver output parsing, `src/port/mod.rs` -/

/-- Substring occurrence over character lists. -/
def containsSub : List Char → List Char → Bool
  | [], pat => pat.isEmpty
  | c :: rest, pat => pat.isPrefixOf (c :: rest) || containsSub rest pat

/-- Rust `str::contains` for a literal pattern. -/
def strContains (s pat : String) : Bool :=
  containsSub s.toList pat.toList

/-- Per-pid details returned by `PortManager::get_all_process_details`
(an external batched `lsof -p` call, abstracted as an oracle). -/
structure LsofDetails where
  executable_path : String
  working_directory : String
deriving DecidableEq, Repr, Inhabited

/-- `PortManager::extract_process_name`. -/
def extract_process_name (command_line : String) : String :=
  if command_line = "" then "Unknown"
  else
    match (splitWhitespace command_line).head? with
    | some first_part => ((first_part.splitOn "/").getLast?).getD first_part
    | none => "Unknown"

/-- `PortManager::extract_executable_path`. -/
def extract_executable_path (command_line : String) : String :=
  if command_line = "" then "Unknown"
  else
    match (splitWhitespace command_line).head? with
    | some first_part => first_part
    | none => "Unknown"

/-- First pass of `PortManager::parse_lsof_output`: the basic tuple
`(pid, command, port, protocol, address)` one line contributes, or `none`
when the line is skipped. -/
def lsofLineBasic (line : String) : Option (Nat × String × Nat × String × String) :=
  let fields := splitWhitespace line
  if fields.length < 9 then none
  else
    let command := fields.getD 0 ""
    let pid_str := fields.getD 1 ""
    let type_field := fields.getD 4 ""
    let protocol_field := if fields.length > 7 then fields.getD 7 "" else ""
    let node := fields.getD 8 ""
    if ¬(strContains type_field "IPv4" ∨ strContains type_field "IPv6") then none
    else
      match rustParseUnsigned 10 4294967295 pid_str.toList with
      | none => none
      | some pid =>
        match rfindColonSplit node.toList with
        | none => none
        | some parts =>
          match rustParseUnsigned 10 65535 parts.2 with
          | none => none
          | some port =>
            let address := String.mk parts.1
            let protocol :=
              if strContains protocol_field "TCP" ∨ strContains protocol_field "tcp" then "tcp"
              else if strContains protocol_field "UDP" ∨ strContains protocol_field "udp" then "udp"
              else if strContains node "TCP" ∨ strContains node "tcp" then "tcp"
              else if strContains node "UDP" ∨ strContains node "udp" then "udp"
              else if strContains type_field "TCP" ∨ strContains type_field "tcp" then "tcp"
              else if strContains type_field "UDP" ∨ strContains type_field "udp" then "udp"
              else "tcp"
            some (pid, command, port, protocol, address)

/-- `PortManager::parse_lsof_output`: first pass collects basic tuples,
second pass builds the records, joining the batched per-pid details. -/
def parse_lsof_output (output : String) (details : Nat → Option LsofDetails) :
    Except Unit (List ProcessInfo) :=
  let basic := ((rustLines output).drop 1).filterMap lsofLineBasic
  Except.ok (basic.map fun b =>
    let pid := b.1
    let full_command := b.2.1
    let port := b.2.2.1
    let protocol := b.2.2.2.1
    let address := b.2.2.2.2
    let name := extract_process_name full_command
    let paths :=
      match details pid with
      | some d =>
        (if d.executable_path ≠ "Unknown" then d.executable_path
         else extract_executable_path full_command,
         d.working_directory)
      | none => (extract_executable_path full_command, "Unknown")
    { pid := pid, name := name, command := full_command, executable_path := paths.1,
      working_directory := paths.2, port := port, protocol := protocol,
      address := address, inode := none })

/-! ### Strategy selector, `src/port/adaptive.rs` -/

/-- `PerformanceProfile`. -/
inductive PerformanceProfile where
  | Fast
  | Balanced
  | Complete
deriving DecidableEq, Repr, Inhabited

/-- Mutable state of `AdaptivePortManager`; instants and durations are `Nat`
ticks, with one tick unit for the benchmark latencies. -/
structure AdaptivePortManager where
  procfs : ProcfsState
  use_procfs : Bool
  performance_profile : PerformanceProfile
  last_performance_check : Option Nat
  procfs_performance : Option Nat
  legacy_performance : Option Nat
deriving DecidableEq, Repr, Inhabited

/-- `AdaptivePortManager::clear_cache` (the legacy manager holds no cache). -/
def adaptive_clear_cache (m : AdaptivePortManager) (now : Nat) : AdaptivePortManager :=
  { m with procfs := procfs_clear_cache m.procfs now }

/-- `AdaptivePortManager::set_performance_profile`. -/
def set_performance_profile (m : AdaptivePortManager) (profile : PerformanceProfile) :
    AdaptivePortManager :=
  let m1 := { m with performance_profile := profile }
  if profile = PerformanceProfile.Balanced then
    { m1 with last_performance_check := none }
  else m1

/-- One invocation of an underlying resolver, for stating which resolution
paths a selector operation attempted. -/
inductive RCall where
  | procfsList (protocol : String)
  | legacyList (protocol : String)
  | procfsCheck (port : Nat) (protocol : String)
  | legacyCheck (port : Nat) (protocol : String)
deriving DecidableEq, Repr

/-- Oracle for the two underlying resolvers' observable behavior (their I/O
outcomes and measured latencies). -/
structure ResolverEnv where
  procfs_list : String → Except Unit (List ProcessInfo)
  legacy_list : String → Except Unit (List ProcessInfo)
  procfs_check : Nat → String → Except Unit (Option ProcessInfo)
  legacy_check : Nat → String → Except Unit (Option ProcessInfo)
  procfs_elapsed : String → Nat
  legacy_elapsed : String → Nat

/-- `AdaptivePortManager::check_port`, also returning the resolver calls it
made. -/
def adaptive_check_port (m : AdaptivePortManager) (env : ResolverEnv)
    (port : Nat) (protocol : String) : Except Unit (Option ProcessInfo) × List RCall :=
  match m.performance_profile with
  | PerformanceProfile.Fast =>
    if m.use_procfs then (env.procfs_check port protocol, [RCall.procfsCheck port protocol])
    else (env.legacy_check port protocol, [RCall.legacyCheck port protocol])
  | _ =>
    if m.use_procfs then
      match env.procfs_check port protocol with
      | Except.ok result => (Except.ok result, [RCall.procfsCheck port protocol])
      | Except.error _ =>
        (env.legacy_check port protocol,
         [RCall.procfsCheck port protocol, RCall.legacyCheck port protocol])
    else (env.legacy_check port protocol, [RCall.legacyCheck port protocol])

/-- `AdaptivePortManager::benchmark_performance`. -/
def benchmark_performance (m : AdaptivePortManager) (env : ResolverEnv)
    (now : Nat) (protocol : String) : AdaptivePortManager × List RCall :=
  let m1 := { m with last_performance_check := some now }
  let r :=
    if m1.use_procfs then
      ({ m1 with procfs_performance := some (env.procfs_elapsed protocol) },
       [RCall.procfsList protocol])
    else (m1, [])
  ({ r.1 with legacy_performance := some (env.legacy_elapsed protocol) },
   r.2 ++ [RCall.legacyList protocol])

/-- The `should_benchmark` condition of
`AdaptivePortManager::list_processes_balanced` (re-benchmark window of 1800
seconds). -/
def balanced_should_benchmark (m : AdaptivePortManager) (now : Nat) : Bool :=
  m.last_performance_check.isNone ||
    (match m.last_performance_check with
     | some last => decide (now - last > 1800)
     | none => true)

/-- The "within 20%" test of `list_processes_balanced`: the source computes
`procfs / legacy` in seconds as `f64` and re-benchmarks when the quotient is
strictly between `0.8` and `1.2`; this is modelled as the exact rational
comparison on the tick counts. -/
def no_clear_winner (procfs_time legacy_time : Nat) : Bool :=
  decide (5 * procfs_time > 4 * legacy_time) && decide (5 * procfs_time < 6 * legacy_time)

/-- `AdaptivePortManager::list_processes_balanced`. -/
def list_processes_balanced (m : AdaptivePortManager) (env : ResolverEnv)
    (now : Nat) (protocol : String) :
    AdaptivePortManager × Except Unit (List ProcessInfo) × List RCall :=
  let bench :=
    if balanced_should_benchmark m now then
      match m.procfs_performance, m.legacy_performance with
      | some procfs_time, some legacy_time =>
        if no_clear_winner procfs_time legacy_time then
          benchmark_performance m env now protocol
        else ({ m with last_performance_check := some now }, [])
      | _, _ => benchmark_performance m env now protocol
    else (m, [])
  let m1 := bench.1
  let choose_procfs :=
    match m1.procfs_performance, m1.legacy_performance with
    | some procfs_time, some legacy_time => decide (procfs_time < legacy_time)
    | _, _ => false
  if choose_procfs && m1.use_procfs then
    match env.procfs_list protocol with
    | Except.ok result => (m1, Except.ok result, bench.2 ++ [RCall.procfsList protocol])
    | Except.error _ =>
      (m1, env.legacy_list protocol,
       bench.2 ++ [RCall.procfsList protocol, RCall.legacyList protocol])
  else (m1, env.legacy_list protocol, bench.2 ++ [RCall.legacyList protocol])

/-- `AdaptivePortManager::enrich_complete_information`: the loop body mutates
nothing, so the pass is the identity. -/
def enrich_complete_information (ps : List ProcessInfo) : List ProcessInfo := ps

/-- `AdaptivePortManager::list_processes_complete`. -/
def list_processes_complete (m : AdaptivePortManager) (env : ResolverEnv)
    (protocol : String) :
    AdaptivePortManager × Except Unit (List ProcessInfo) × List RCall :=
  if m.use_procfs then
    match env.procfs_list protocol with
    | Except.ok processes =>
      (m, Except.ok (enrich_complete_information processes), [RCall.procfsList protocol])
    | Except.error _ =>
      (m, env.legacy_list protocol, [RCall.procfsList protocol, RCall.legacyList protocol])
  else (m, env.legacy_list protocol, [RCall.legacyList protocol])

/-- `AdaptivePortManager::list_processes`. -/
def adaptive_list_processes (m : AdaptivePortManager) (env : ResolverEnv)
    (now : Nat) (protocol : String) :
    AdaptivePortManager × Except Unit (List ProcessInfo) × List RCall :=
  match m.performance_profile with
  | PerformanceProfile.Fast => (m, env.legacy_list protocol, [RCall.legacyList protocol])
  | PerformanceProfile.Balanced => list_processes_balanced m env now protocol
  | PerformanceProfile.Complete => list_processes_complete m env protocol

/-! ### Incremental cache, `src/port/incremental.rs` -/

/-- `PortCache`. -/
structure PortCache where
  processes : List (String × List ProcessInfo)
  process_map : List (Nat × ProcessInfo)
  last_updated : List (String × Nat)
  change_log : List PortChange
deriving DecidableEq, Repr, Inhabited

/-- `PortCache::clear`: the change log is kept for history. -/
def portCache_clear (c : PortCache) : PortCache :=
  { processes := [], process_map := [], last_updated := [], change_log := c.change_log }

/-- Mutable state of `IncrementalPortManager`. -/
structure IncrementalState where
  manager : AdaptivePortManager
  cache : PortCache
  update_interval : Nat
  last_full_update : Option Nat
deriving DecidableEq, Repr, Inhabited

/-- Oracle for the selector's observable behavior as seen by the incremental
layer (`AdaptivePortManager::list_processes` / `check_port` outcomes). -/
structure SelectorEnv where
  list_result : String → Except Unit (List ProcessInfo)
  check_result : Nat → String → Except Unit (Option ProcessInfo)

/-- `IncrementalPortManager::should_update`. -/
def should_update (st : IncrementalState) (now : Nat) (protocol : String) : Bool :=
  match alLookup st.cache.last_updated protocol with
  | some last_update => decide (now - last_update ≥ st.update_interval)
  | none => true

/-- The change-log append and cap shared verbatim by `update_processes` and
`background_update`: extend the log, and when it exceeds 1000 entries drain
the oldest 500 in one batch (`change_log.drain(0..500)`). -/
def append_and_trim (log changes : List PortChange) : List PortChange :=
  let log2 := log ++ changes
  if log2.length > 1000 then log2.drop 500 else log2

/-- `IncrementalPortManager::update_processes`. -/
def update_processes (st : IncrementalState) (env : SelectorEnv) (now : Nat)
    (protocol : String) : Except Unit IncrementalState :=
  match env.list_result protocol with
  | Except.error e => Except.error e
  | Except.ok current_processes =>
    let c := st.cache
    let old_processes := (alLookup c.processes protocol).getD []
    let changes := compute_changes now old_processes current_processes
    let processes := alInsert c.processes protocol current_processes
    let last_updated := alInsert c.last_updated protocol now
    let pm := current_processes.foldl (fun m p => alInsert m p.port p) c.process_map
    let current_ports := current_processes.map fun p => p.port
    let old_ports := (old_processes.map fun p => p.port).dedup
    let pm := old_ports.foldl
      (fun (m : List (Nat × ProcessInfo)) removed_port =>
        if removed_port ∈ current_ports then m else alErase m removed_port) pm
    let log := append_and_trim c.change_log changes
    Except.ok { st with
      cache := { processes := processes, process_map := pm,
                 last_updated := last_updated, change_log := log },
      last_full_update := some now }

/-- `IncrementalPortManager::background_update` (same refresh cycle, but no
removal of vanished ports from the port index and no `last_full_update`). -/
def background_update (st : IncrementalState) (env : SelectorEnv) (now : Nat)
    (protocol : String) : Except Unit IncrementalState :=
  match env.list_result protocol with
  | Except.error e => Except.error e
  | Except.ok current_processes =>
    let c := st.cache
    let old_processes := (alLookup c.processes protocol).getD []
    let changes := compute_changes now old_processes current_processes
    let processes := alInsert c.processes protocol current_processes
    let last_updated := alInsert c.last_updated protocol now
    let pm := current_processes.foldl (fun m p => alInsert m p.port p) c.process_map
    let log := append_and_trim c.change_log changes
    Except.ok { st with
      cache := { processes := processes, process_map := pm,
                 last_updated := last_updated, change_log := log } }

/-- `IncrementalPortManager::get_processes`; the boolean reports whether the
selector was invoked. -/
def get_processes (st : IncrementalState) (env : SelectorEnv) (now : Nat)
    (protocol : String) : Except Unit (IncrementalState × List ProcessInfo) × Bool :=
  if should_update st now protocol then
    match update_processes st env now protocol with
    | Except.error e => (Except.error e, true)
    | Except.ok st' =>
      (Except.ok (st', (alLookup st'.cache.processes protocol).getD []), true)
  else
    (Except.ok (st, (alLookup st.cache.processes protocol).getD []), false)

/-- `IncrementalPortManager::get_port`; the boolean reports whether the
selector was invoked. -/
def get_port (st : IncrementalState) (env : SelectorEnv) (now : Nat)
    (port : Nat) (protocol : String) :
    Except Unit (IncrementalState × Option ProcessInfo) × Bool :=
  let fresh :=
    match alLookup st.cache.last_updated protocol with
    | some cached_time => decide (now - cached_time < st.update_interval)
    | none => false
  if fresh then
    let r :=
      match alLookup st.cache.process_map port with
      | some p => if p.protocol = protocol then some p else none
      | none => none
    (Except.ok (st, r), false)
  else
    match env.check_result port protocol with
    | Except.error e => (Except.error e, true)
    | Except.ok result =>
      let st' :=
        match result with
        | some p =>
          { st with cache := { st.cache with
              process_map := alInsert st.cache.process_map port p,
              last_updated := alInsert st.cache.last_updated protocol now } }
        | none => st
      (Except.ok (st', result), true)

/-- `IncrementalPortManager::get_changes_since`. -/
def get_changes_since (st : IncrementalState) (since : Nat) : List PortChange :=
  st.cache.change_log.filter fun change => decide (since < change.timestamp)

/-- `IncrementalPortManager::force_refresh`. -/
def force_refresh (st : IncrementalState) (now : Nat) : IncrementalState :=
  { st with
    cache := portCache_clear st.cache,
    manager := adaptive_clear_cache st.manager now,
    last_full_update := none }

/-! ### Concrete instances used by witnesses and counterexamples -/

/-- A sample record on port 80. -/
def samplePi : ProcessInfo := ⟨1, "n", "c", "e", "w", 80, "tcp", "*", none⟩

/-- A sample change-log event. -/
def sampleEv : PortChange := ⟨0, ChangeType.Added, samplePi⟩

/-- A sample adaptive manager in the Fast profile with the kernel-table
path available. -/
def fastMgr : AdaptivePortManager :=
  { procfs := ⟨[], 0, 2⟩, use_procfs := true,
    performance_profile := PerformanceProfile.Fast,
    last_performance_check := none,
    procfs_performance := none, legacy_performance := none }

/-- A resolver environment whose kernel-table calls fail while the
tool-chain calls succeed. -/
def failProcfsEnv : ResolverEnv :=
  { procfs_list := fun _ => Except.error (),
    legacy_list := fun _ => Except.ok [],
    procfs_check := fun _ _ => Except.error (),
    legacy_check := fun _ _ => Except.ok (some samplePi),
    procfs_elapsed := fun _ => 0,
    legacy_elapsed := fun _ => 0 }

/-- An incremental state whose tcp entry was last updated at tick 10 with a
5-tick update interval. -/
def freshState : IncrementalState :=
  { manager := fastMgr,
    cache := { processes := [], process_map := [],
               last_updated := [("tcp", 10)], change_log := [] },
    update_interval := 5, last_full_update := none }

/-- An incremental state holding a change log of exactly 1000 entries and no
previous snapshot. -/
def fullLogState : IncrementalState :=
  { manager := fastMgr,
    cache := { processes := [], process_map := [], last_updated := [],
               change_log := List.replicate 1000 sampleEv },
    update_interval := 5, last_full_update := none }

/-- A selector environment that reports one record on port 80. -/
def onePortEnv : SelectorEnv :=
  ⟨fun _ => Except.ok [samplePi], fun _ _ => Except.ok (some samplePi)⟩

/-- A selector environment that reports nothing. -/
def emptyEnv : SelectorEnv :=
  ⟨fun _ => Except.ok [], fun _ _ => Except.ok none⟩

/-- A sample kernel TCP table: a header, one valid listening line and one
malformed line. -/
def tcpSample : String :=
  "sl local_address rem_address st tx inode\n" ++
  " 0: 0100007F:1F90 00000000:0000 0A a b c d e 12345\n" ++
  "short line"

/-! ## Association-list map lemmas -/

theorem alLookup_alInsert_self {α β : Type} [DecidableEq α] (m : List (α × β)) (k : α) (v : β) :
    alLookup (alInsert m k v) k = some v := by
  induction m with
  | nil => simp [alInsert, alLookup]
  | cons e rest ih =>
    by_cases h : e.1 = k
    · simp [alInsert, alLookup, h]
    · simpa [alInsert, alLookup, h] using ih

theorem alKeys_nil {α β : Type} : alKeys ([] : List (α × β)) = [] := rfl

theorem alKeys_cons {α β : Type} (e : α × β) (m : List (α × β)) :
    alKeys (e :: m) = e.1 :: alKeys m := rfl

theorem alLookup_alInsert_ne {α β : Type} [DecidableEq α] (m : List (α × β)) (k j : α) (v : β)
    (h : j ≠ k) : alLookup (alInsert m k v) j = alLookup m j := by
  have hkj : ¬k = j := fun hh => h hh.symm
  induction m with
  | nil => simp [alInsert, alLookup, hkj]
  | cons e rest ih =>
    by_cases he : e.1 = k
    · subst he
      simp [alInsert, alLookup, hkj]
    · simp only [alInsert, if_neg he, alLookup]
      by_cases hj : e.1 = j <;> simp [hj, ih]

theorem mem_alKeys_alInsert {α β : Type} [DecidableEq α] (m : List (α × β)) (k j : α) (v : β) :
    j ∈ alKeys (alInsert m k v) ↔ j ∈ alKeys m ∨ j = k := by
  induction m with
  | nil => simp [alInsert, alKeys_nil, alKeys_cons, eq_comm]
  | cons e rest ih =>
    obtain ⟨a, b⟩ := e
    by_cases he : a = k
    · subst he
      simp only [alInsert, if_true, eq_self_iff_true, alKeys_cons, List.mem_cons]
      tauto
    · simp only [alInsert, if_neg he, alKeys_cons, List.mem_cons, ih]
      tauto

theorem alKeys_nodup_alInsert {α β : Type} [DecidableEq α] (m : List (α × β)) (k : α) (v : β)
    (h : (alKeys m).Nodup) : (alKeys (alInsert m k v)).Nodup := by
  induction m with
  | nil => simp [alInsert, alKeys_cons, alKeys_nil]
  | cons e rest ih =>
    rw [alKeys_cons, List.nodup_cons] at h
    by_cases he : e.1 = k
    · subst he
      simpa [alInsert, alKeys_cons, List.nodup_cons] using h
    · simp only [alInsert, if_neg he, alKeys_cons, List.nodup_cons]
      refine ⟨fun hmem => ?_, ih h.2⟩
      rcases (mem_alKeys_alInsert rest k e.1 v).1 hmem with hin | heq
      · exact h.1 hin
      · exact he heq

theorem mem_alInsert {α β : Type} [DecidableEq α] (m : List (α × β)) (k : α) (v : β)
    (e : α × β) (h : e ∈ alInsert m k v) : e ∈ m ∨ e = (k, v) := by
  induction m with
  | nil => simpa [alInsert] using h
  | cons e' rest ih =>
    by_cases he : e'.1 = k
    · simp only [alInsert, if_pos he, List.mem_cons] at h
      rcases h with rfl | h
      · right; rfl
      · left; exact List.mem_cons_of_mem _ h
    · simp only [alInsert, if_neg he, List.mem_cons] at h
      rcases h with rfl | h
      · left; exact List.mem_cons_self _ _
      · rcases ih h with h' | h'
        · left; exact List.mem_cons_of_mem _ h'
        · right; exact h'

theorem alLookup_eq_none_iff {α β : Type} [DecidableEq α] (m : List (α × β)) (k : α) :
    alLookup m k = none ↔ k ∉ alKeys m := by
  induction m with
  | nil => simp [alLookup, alKeys_nil]
  | cons e rest ih =>
    by_cases he : e.1 = k
    · subst he
      simp [alLookup, alKeys_cons]
    · have : ¬k = e.1 := fun hh => he hh.symm
      simp [alLookup, alKeys_cons, he, ih, this]

theorem alLookup_of_mem_of_nodup {α β : Type} [DecidableEq α] (m : List (α × β)) (k : α) (v : β)
    (hnd : (alKeys m).Nodup) (hmem : (k, v) ∈ m) : alLookup m k = some v := by
  induction m with
  | nil => simp at hmem
  | cons e rest ih =>
    simp only [alKeys, List.map_cons, List.nodup_cons] at hnd
    rcases List.mem_cons.1 hmem with rfl | hmem'
    · simp [alLookup]
    · have hne : e.1 ≠ k := by
        rintro rfl
        exact hnd.1 (List.mem_map.2 ⟨(e.1, v), hmem', rfl⟩)
      simp only [alLookup, if_neg hne]
      exact ih hnd.2 hmem'

/-! ## Port-map (`portMap`) lemmas -/

theorem foldl_insert_keys (ps : List ProcessInfo) (m : List (Nat × ProcessInfo)) (j : Nat) :
    j ∈ alKeys (ps.foldl (fun m p => alInsert m p.port p) m) ↔
      j ∈ alKeys m ∨ j ∈ ps.map (fun q => q.port) := by
  induction ps generalizing m with
  | nil => simp
  | cons p rest ih =>
    simp only [List.foldl_cons, List.map_cons, List.mem_cons]
    rw [ih, mem_alKeys_alInsert]
    tauto

theorem foldl_insert_nodup (ps : List ProcessInfo) (m : List (Nat × ProcessInfo))
    (h : (alKeys m).Nodup) :
    (alKeys (ps.foldl (fun m p => alInsert m p.port p) m)).Nodup := by
  induction ps generalizing m with
  | nil => exact h
  | cons p rest ih => exact ih _ (alKeys_nodup_alInsert _ _ _ h)

theorem foldl_insert_entry_port (ps : List ProcessInfo) (m : List (Nat × ProcessInfo))
    (h : ∀ e ∈ m, e.2.port = e.1) :
    ∀ e ∈ ps.foldl (fun m p => alInsert m p.port p) m, e.2.port = e.1 := by
  induction ps generalizing m with
  | nil => exact h
  | cons p rest ih =>
    refine ih _ fun e he => ?_
    rcases mem_alInsert _ _ _ _ he with h' | rfl
    · exact h e h'
    · rfl

theorem portMap_keys_nodup (ps : List ProcessInfo) : (alKeys (portMap ps)).Nodup :=
  foldl_insert_nodup ps [] (by simp [alKeys])

theorem portMap_entry_port (ps : List ProcessInfo) :
    ∀ e ∈ portMap ps, e.2.port = e.1 :=
  foldl_insert_entry_port ps [] (by simp)

theorem mem_alKeys_portMap (ps : List ProcessInfo) (p : Nat) :
    p ∈ alKeys (portMap ps) ↔ p ∈ ps.map (fun q => q.port) := by
  rw [portMap, foldl_insert_keys]
  simp [alKeys]

/-! ## Diff algorithm lemmas (for the change detector) -/

theorem process_changed_self (p : ProcessInfo) : process_changed p p = false := by
  simp [process_changed]

theorem countP_kind_eq_zero (f : Nat × ProcessInfo → Option PortChange)
    (m : List (Nat × ProcessInfo)) (t' : ChangeType) (p : Nat)
    (h : ∀ e c, f e = some c → c.change_type ≠ t') :
    (m.filterMap f).countP
      (fun c => decide (c.change_type = t') && decide (c.process_info.port = p)) = 0 := by
  rw [List.countP_eq_zero]
  intro c hc
  rcases List.mem_filterMap.1 hc with ⟨e, _, hfe⟩
  simp [h e c hfe]

theorem absentCount (other m : List (Nat × ProcessInfo)) (now p : Nat) (t : ChangeType)
    (hnd : (alKeys m).Nodup) (hport : ∀ e ∈ m, e.2.port = e.1) :
    (m.filterMap fun e =>
        if (alLookup other e.1).isNone then some (⟨now, t, e.2⟩ : PortChange)
        else none).countP
      (fun c => decide (c.change_type = t) && decide (c.process_info.port = p))
    = if p ∈ alKeys m ∧ (alLookup other p).isNone then 1 else 0 := by
  induction m with
  | nil => simp [alKeys_nil]
  | cons e rest ih =>
    obtain ⟨k, v⟩ := e
    rw [alKeys_cons, List.nodup_cons] at hnd
    have hvport : v.port = k := hport (k, v) (List.mem_cons_self _ _)
    have hrest := ih hnd.2 fun e he => hport e (List.mem_cons_of_mem _ he)
    by_cases ho : (alLookup other k).isNone
    · rw [List.filterMap_cons, if_pos ho, List.countP_cons, hrest]
      by_cases hkp : k = p
      · subst hkp
        have hnot : ¬(k ∈ alKeys rest ∧ (alLookup other k).isNone = true) := by
          intro hh; exact hnd.1 hh.1
        rw [if_neg hnot]
        have hpred : (decide (t = t) && decide (v.port = k)) = true := by
          simp [hvport]
        rw [hpred, if_pos rfl]
        rw [if_pos ⟨by rw [alKeys_cons]; exact List.mem_cons_self _ _, ho⟩]
      · have hpredf : (decide (t = t) && decide (v.port = p)) = false := by
          have : ¬(v.port = p) := by rw [hvport]; exact hkp
          simp [this]
        rw [hpredf]
        have hmemiff : (p ∈ alKeys ((k, v) :: rest) ∧ (alLookup other p).isNone = true) ↔
            (p ∈ alKeys rest ∧ (alLookup other p).isNone = true) := by
          refine and_congr ?_ Iff.rfl
          rw [alKeys_cons, List.mem_cons]
          have hpk : ¬(p = k) := fun hh => hkp hh.symm
          simp [hpk]
        rw [if_congr hmemiff rfl rfl]
        simp
    · rw [List.filterMap_cons, if_neg ho, hrest]
      by_cases hkp : k = p
      · subst hkp
        rw [if_neg (fun hh => hnd.1 hh.1), if_neg (fun hh => ho hh.2)]
      · have hmemiff : (p ∈ alKeys ((k, v) :: rest) ∧ (alLookup other p).isNone = true) ↔
            (p ∈ alKeys rest ∧ (alLookup other p).isNone = true) := by
          refine and_congr ?_ Iff.rfl
          rw [alKeys_cons, List.mem_cons]
          have hpk : ¬(p = k) := fun hh => hkp hh.symm
          simp [hpk]
        rw [if_congr hmemiff rfl rfl]

theorem modifiedCount (oldm m : List (Nat × ProcessInfo)) (now p : Nat)
    (hnd : (alKeys m).Nodup) (hport : ∀ e ∈ m, e.2.port = e.1) :
    (m.filterMap fun e =>
        match alLookup oldm e.1 with
        | some old_p =>
          if process_changed old_p e.2 then
            some (⟨now, ChangeType.Modified, e.2⟩ : PortChange)
          else none
        | none => none).countP
      (fun c => decide (c.change_type = ChangeType.Modified) && decide (c.process_info.port = p))
    = (match alLookup oldm p, alLookup m p with
       | some old_p, some new_p => if process_changed old_p new_p then 1 else 0
       | _, _ => 0) := by
  induction m with
  | nil =>
    rw [show (alLookup ([] : List (Nat × ProcessInfo)) p = none) from rfl]
    cases alLookup oldm p <;> simp
  | cons e rest ih =>
    obtain ⟨k, v⟩ := e
    rw [alKeys_cons, List.nodup_cons] at hnd
    have hvport : v.port = k := hport (k, v) (List.mem_cons_self _ _)
    have hrest := ih hnd.2 fun e he => hport e (List.mem_cons_of_mem _ he)
    by_cases hkp : k = p
    · subst hkp
      have hlk : alLookup ((k, v) :: rest) k = some v := by simp [alLookup]
      have htail0 : alLookup rest k = none :=
        (alLookup_eq_none_iff rest k).2 hnd.1
      have htail : (rest.filterMap fun e =>
          match alLookup oldm e.1 with
          | some old_p =>
            if process_changed old_p e.2 then
              some (⟨now, ChangeType.Modified, e.2⟩ : PortChange)
            else none
          | none => none).countP
          (fun c => decide (c.change_type = ChangeType.Modified) &&
            decide (c.process_info.port = k)) = 0 := by
        rw [hrest, htail0]
        cases alLookup oldm k <;> rfl
      rw [hlk]
      cases holk : alLookup oldm k with
      | none =>
        rw [List.filterMap_cons]
        have hred : (match alLookup oldm (k, v).1 with
            | some old_p =>
              if process_changed old_p (k, v).2 then
                some (⟨now, ChangeType.Modified, (k, v).2⟩ : PortChange)
              else none
            | none => none) = none := by
          rw [show ((k, v).1 = k) from rfl, holk]
        rw [hred, htail]
      | some old_p =>
        by_cases hch : process_changed old_p v
        · rw [List.filterMap_cons]
          have hred : (match alLookup oldm (k, v).1 with
              | some old_p =>
                if process_changed old_p (k, v).2 then
                  some (⟨now, ChangeType.Modified, (k, v).2⟩ : PortChange)
                else none
              | none => none) =
              some (⟨now, ChangeType.Modified, v⟩ : PortChange) := by
            rw [show ((k, v).1 = k) from rfl, holk]
            simp [hch]
          rw [hred, List.countP_cons, htail]
          have hpred : (decide ((ChangeType.Modified : ChangeType) = ChangeType.Modified) &&
              decide ((⟨now, ChangeType.Modified, v⟩ : PortChange).process_info.port = k)) =
              true := by
            simp [hvport]
          rw [hpred, if_pos rfl]
          simp [hch]
        · rw [List.filterMap_cons]
          have hred : (match alLookup oldm (k, v).1 with
              | some old_p =>
                if process_changed old_p (k, v).2 then
                  some (⟨now, ChangeType.Modified, (k, v).2⟩ : PortChange)
                else none
              | none => none) = none := by
            rw [show ((k, v).1 = k) from rfl, holk]
            simp [hch]
          rw [hred, htail]
          simp [hch]
    · have hlk : alLookup ((k, v) :: rest) p = alLookup rest p := by
        simp [alLookup, hkp]
      rw [hlk, ← hrest, List.filterMap_cons]
      cases hfk : (match alLookup oldm (k, v).1 with
          | some old_p =>
            if process_changed old_p (k, v).2 then
              some (⟨now, ChangeType.Modified, (k, v).2⟩ : PortChange)
            else none
          | none => none) with
      | none => rfl
      | some c =>
        rw [List.countP_cons]
        have hcport : c.process_info.port = k := by
          rw [show ((k, v).1 = k) from rfl] at hfk
          cases holk : alLookup oldm k with
          | none => rw [holk] at hfk; exact absurd hfk (by simp)
          | some old_p =>
            rw [holk] at hfk
            by_cases hch : process_changed old_p v
            · simp only [hch, if_true] at hfk
              cases hfk
              exact hvport
            · simp only [hch] at hfk
              exact absurd hfk (by simp)
        have hpredf : (decide (c.change_type = ChangeType.Modified) &&
            decide (c.process_info.port = p)) = false := by
          have : ¬(c.process_info.port = p) := by rw [hcport]; exact hkp
          simp [this]
        rw [hpredf]
        simp

/-- Claim C1: for every pair of snapshot lists, `compute_changes` emits
exactly one `Added` event for each port present in the new port-keyed map but
not the old one, exactly one `Removed` event for each port present only in
the old map, and exactly one `Modified` event for each port present in both
maps whose pid, name, command or executable path differs; and
`compute_changes l l` is the empty event list. -/
theorem compute_changes_exact_events (now : Nat)
    (old_processes new_processes : List ProcessInfo) (p : Nat) :
    eventCount (compute_changes now old_processes new_processes) ChangeType.Added p =
      (if p ∈ new_processes.map (fun q => q.port) ∧
          p ∉ old_processes.map (fun q => q.port) then 1 else 0) ∧
    eventCount (compute_changes now old_processes new_processes) ChangeType.Removed p =
      (if p ∈ old_processes.map (fun q => q.port) ∧
          p ∉ new_processes.map (fun q => q.port) then 1 else 0) ∧
    eventCount (compute_changes now old_processes new_processes) ChangeType.Modified p =
      (if modifiedAt old_processes new_processes p then 1 else 0) ∧
    compute_changes now old_processes old_processes = [] := by
  have hndN := portMap_keys_nodup new_processes
  have hpN := portMap_entry_port new_processes
  have hndO := portMap_keys_nodup old_processes
  have hpO := portMap_entry_port old_processes
  have hremA : ∀ (e : Nat × ProcessInfo) (c : PortChange),
      (if (alLookup (portMap new_processes) e.1).isNone then
        some (⟨now, ChangeType.Removed, e.2⟩ : PortChange) else none) = some c →
      c.change_type ≠ ChangeType.Added := by
    intro e c h
    by_cases hh : (alLookup (portMap new_processes) e.1).isNone
    · rw [if_pos hh] at h
      cases h
      simp
    · rw [if_neg hh] at h
      exact absurd h (by simp)
  have haddR : ∀ (e : Nat × ProcessInfo) (c : PortChange),
      (if (alLookup (portMap old_processes) e.1).isNone then
        some (⟨now, ChangeType.Added, e.2⟩ : PortChange) else none) = some c →
      c.change_type ≠ ChangeType.Removed := by
    intro e c h
    by_cases hh : (alLookup (portMap old_processes) e.1).isNone
    · rw [if_pos hh] at h
      cases h
      simp
    · rw [if_neg hh] at h
      exact absurd h (by simp)
  have hmodK : ∀ (t' : ChangeType), t' ≠ ChangeType.Modified →
      ∀ (e : Nat × ProcessInfo) (c : PortChange),
      (match alLookup (portMap old_processes) e.1 with
       | some old_p =>
         if process_changed old_p e.2 then
           some (⟨now, ChangeType.Modified, e.2⟩ : PortChange)
         else none
       | none => none) = some c → c.change_type ≠ t' := by
    intro t' ht' e c h
    cases holk : alLookup (portMap old_processes) e.1 with
    | none => rw [holk] at h; exact absurd h (by simp)
    | some old_p =>
      rw [holk] at h
      by_cases hch : process_changed old_p e.2
      · simp only [hch, if_true] at h
        cases h
        simpa using fun hh => ht' hh.symm
      · simp only [hch] at h
        exact absurd h (by simp)
  have haddM : ∀ (e : Nat × ProcessInfo) (c : PortChange),
      (match alLookup (portMap old_processes) e.1 with
       | some old_p =>
         if process_changed old_p e.2 then
           some (⟨now, ChangeType.Modified, e.2⟩ : PortChange)
         else none
       | none => none) = some c → c.change_type ≠ ChangeType.Added :=
    hmodK ChangeType.Added (by simp)
  have hremM : ∀ (e : Nat × ProcessInfo) (c : PortChange),
      (match alLookup (portMap old_processes) e.1 with
       | some old_p =>
         if process_changed old_p e.2 then
           some (⟨now, ChangeType.Modified, e.2⟩ : PortChange)
         else none
       | none => none) = some c → c.change_type ≠ ChangeType.Removed :=
    hmodK ChangeType.Removed (by simp)
  refine ⟨?_, ?_, ?_, ?_⟩
  · simp only [compute_changes, eventCount]
    rw [List.countP_append, List.countP_append]
    rw [absentCount (portMap old_processes) (portMap new_processes) now p
      ChangeType.Added hndN hpN]
    rw [countP_kind_eq_zero _ _ ChangeType.Added p hremA]
    rw [countP_kind_eq_zero _ _ ChangeType.Added p haddM]
    have hcond : (p ∈ alKeys (portMap new_processes) ∧
        (alLookup (portMap old_processes) p).isNone = true) ↔
        (p ∈ new_processes.map (fun q => q.port) ∧
         p ∉ old_processes.map (fun q => q.port)) := by
      rw [mem_alKeys_portMap, Option.isNone_iff_eq_none, alLookup_eq_none_iff,
        mem_alKeys_portMap]
    rw [if_congr hcond rfl rfl]
    omega
  · simp only [compute_changes, eventCount]
    rw [List.countP_append, List.countP_append]
    rw [absentCount (portMap new_processes) (portMap old_processes) now p
      ChangeType.Removed hndO hpO]
    rw [countP_kind_eq_zero _ _ ChangeType.Removed p haddR]
    rw [countP_kind_eq_zero _ _ ChangeType.Removed p hremM]
    have hcond : (p ∈ alKeys (portMap old_processes) ∧
        (alLookup (portMap new_processes) p).isNone = true) ↔
        (p ∈ old_processes.map (fun q => q.port) ∧
         p ∉ new_processes.map (fun q => q.port)) := by
      rw [mem_alKeys_portMap, Option.isNone_iff_eq_none, alLookup_eq_none_iff,
        mem_alKeys_portMap]
    rw [if_congr hcond rfl rfl]
    omega
  · simp only [compute_changes, eventCount]
    rw [List.countP_append, List.countP_append]
    rw [modifiedCount (portMap old_processes) (portMap new_processes) now p hndN hpN]
    have haddZ : ∀ (e : Nat × ProcessInfo) (c : PortChange),
        (if (alLookup (portMap old_processes) e.1).isNone then
          some (⟨now, ChangeType.Added, e.2⟩ : PortChange) else none) = some c →
        c.change_type ≠ ChangeType.Modified := by
      intro e c h
      by_cases hh : (alLookup (portMap old_processes) e.1).isNone
      · rw [if_pos hh] at h
        cases h
        simp
      · rw [if_neg hh] at h
        exact absurd h (by simp)
    have hremZ : ∀ (e : Nat × ProcessInfo) (c : PortChange),
        (if (alLookup (portMap new_processes) e.1).isNone then
          some (⟨now, ChangeType.Removed, e.2⟩ : PortChange) else none) = some c →
        c.change_type ≠ ChangeType.Modified := by
      intro e c h
      by_cases hh : (alLookup (portMap new_processes) e.1).isNone
      · rw [if_pos hh] at h
        cases h
        simp
      · rw [if_neg hh] at h
        exact absurd h (by simp)
    rw [countP_kind_eq_zero _ _ ChangeType.Modified p haddZ]
    rw [countP_kind_eq_zero _ _ ChangeType.Modified p hremZ]
    cases ho : alLookup (portMap old_processes) p <;>
      cases hn : alLookup (portMap new_processes) p <;>
      simp [modifiedAt, ho, hn]
  · simp only [compute_changes]
    have h1 : ((portMap old_processes).filterMap fun e =>
        if (alLookup (portMap old_processes) e.1).isNone then
          some (⟨now, ChangeType.Added, e.2⟩ : PortChange)
        else none) = [] := by
      rw [List.filterMap_eq_nil_iff]
      intro e he
      obtain ⟨k, vv⟩ := e
      have hl : alLookup (portMap old_processes) k = some vv :=
        alLookup_of_mem_of_nodup _ _ _ hndO he
      simp [hl]
    have h2 : ((portMap old_processes).filterMap fun e =>
        if (alLookup (portMap old_processes) e.1).isNone then
          some (⟨now, ChangeType.Removed, e.2⟩ : PortChange)
        else none) = [] := by
      rw [List.filterMap_eq_nil_iff]
      intro e he
      obtain ⟨k, vv⟩ := e
      have hl : alLookup (portMap old_processes) k = some vv :=
        alLookup_of_mem_of_nodup _ _ _ hndO he
      simp [hl]
    have h3 : ((portMap old_processes).filterMap fun e =>
        match alLookup (portMap old_processes) e.1 with
        | some old_p =>
          if process_changed old_p e.2 then
            some (⟨now, ChangeType.Modified, e.2⟩ : PortChange)
          else none
        | none => none) = [] := by
      rw [List.filterMap_eq_nil_iff]
      intro e he
      obtain ⟨k, vv⟩ := e
      have hl : alLookup (portMap old_processes) k = some vv :=
        alLookup_of_mem_of_nodup _ _ _ hndO he
      simp [hl, process_changed_self]
    rw [h1, h2, h3]
    rfl

/-! ## Cache and selector state lemmas -/

theorem update_processes_change_log (st : IncrementalState) (env : SelectorEnv)
    (now : Nat) (protocol : String) (current : List ProcessInfo)
    (h : env.list_result protocol = Except.ok current) :
    ∃ st', update_processes st env now protocol = Except.ok st' ∧
      st'.cache.change_log = append_and_trim st.cache.change_log
        (compute_changes now ((alLookup st.cache.processes protocol).getD []) current) := by
  unfold update_processes
  rw [h]
  exact ⟨_, rfl, rfl⟩

theorem background_update_change_log (st : IncrementalState) (env : SelectorEnv)
    (now : Nat) (protocol : String) (current : List ProcessInfo)
    (h : env.list_result protocol = Except.ok current) :
    ∃ st', background_update st env now protocol = Except.ok st' ∧
      st'.cache.change_log = append_and_trim st.cache.change_log
        (compute_changes now ((alLookup st.cache.processes protocol).getD []) current) := by
  unfold background_update
  rw [h]
  exact ⟨_, rfl, rfl⟩

/-- Claim C8: `force_refresh` empties the per-protocol snapshot map, the port
index and the per-protocol last-updated map, leaves the change log exactly as
it was (so `get_changes_since` returns the same events before and after), and
clears the kernel-table resolver's per-pid detail cache. -/
theorem force_refresh_frame (st : IncrementalState) (now : Nat) :
    (force_refresh st now).cache.processes = [] ∧
    (force_refresh st now).cache.process_map = [] ∧
    (force_refresh st now).cache.last_updated = [] ∧
    (force_refresh st now).cache.change_log = st.cache.change_log ∧
    (∀ since, get_changes_since (force_refresh st now) since = get_changes_since st since) ∧
    (force_refresh st now).manager.procfs.pid_cache = [] :=
  ⟨rfl, rfl, rfl, rfl, fun _ => rfl, rfl⟩

/-- Counterexample to claim C5: switching the profile to `Balanced` does not
clear the recorded benchmark latencies; on a state holding measured latencies
7 and 9 they both survive the switch. -/
theorem set_profile_balanced_counterexample :
    (set_performance_profile
      { procfs := ⟨[], 0, 2⟩, use_procfs := true,
        performance_profile := PerformanceProfile.Fast,
        last_performance_check := some 3,
        procfs_performance := some 7,
        legacy_performance := some 9 }
      PerformanceProfile.Balanced).procfs_performance = some 7 ∧
    (set_performance_profile
      { procfs := ⟨[], 0, 2⟩, use_procfs := true,
        performance_profile := PerformanceProfile.Fast,
        last_performance_check := some 3,
        procfs_performance := some 7,
        legacy_performance := some 9 }
      PerformanceProfile.Balanced).legacy_performance = some 9 :=
  ⟨rfl, rfl⟩

/-- Claim C5 (amended): `set_performance_profile(Balanced)` clears only the
benchmark timestamp (`last_performance_check`), leaving both recorded
latencies intact, so the next Balanced `list_processes` call re-evaluates the
benchmark decision (its `should_benchmark` test is true), not necessarily
re-measuring both paths. -/
theorem set_profile_balanced_amended (m : AdaptivePortManager) :
    (set_performance_profile m PerformanceProfile.Balanced).performance_profile =
      PerformanceProfile.Balanced ∧
    (set_performance_profile m PerformanceProfile.Balanced).last_performance_check = none ∧
    (set_performance_profile m PerformanceProfile.Balanced).procfs_performance =
      m.procfs_performance ∧
    (set_performance_profile m PerformanceProfile.Balanced).legacy_performance =
      m.legacy_performance ∧
    (∀ now, balanced_should_benchmark
      (set_performance_profile m PerformanceProfile.Balanced) now = true) :=
  ⟨rfl, rfl, rfl, rfl, fun _ => rfl⟩

/-- Counterexample to claim C4: in the Fast profile with the kernel-table
path available, a kernel-table `check_port` failure is returned to the caller
instead of falling back to the tool-chain resolver (which would have
answered `Ok(Some(..))` here). -/
theorem fast_profile_counterexample :
    (adaptive_check_port fastMgr failProcfsEnv 80 "tcp").1 = Except.error () ∧
    failProcfsEnv.legacy_check 80 "tcp" = Except.ok (some samplePi) :=
  ⟨rfl, rfl⟩

/-- Claim C4 (amended): in the Fast profile, when the kernel-table path is
available, `check_port` consults only the kernel-table resolver and returns
its result, error included, with no fallback (fallback-on-error exists only
in Balanced/Complete); `list_processes` in Fast never attempts the
kernel-table path and always uses the tool-chain resolver. -/
theorem fast_profile_amended (m : AdaptivePortManager) (env : ResolverEnv)
    (port : Nat) (protocol : String) (now : Nat)
    (hf : m.performance_profile = PerformanceProfile.Fast) :
    (m.use_procfs = true →
      adaptive_check_port m env port protocol =
        (env.procfs_check port protocol, [RCall.procfsCheck port protocol])) ∧
    adaptive_list_processes m env now protocol =
      (m, env.legacy_list protocol, [RCall.legacyList protocol]) := by
  constructor
  · intro hu
    simp [adaptive_check_port, hf, hu]
  · simp [adaptive_list_processes, hf]

/-- Witness for the amended claim C4 at a concrete Fast-profile manager and
environment. -/
theorem fast_profile_amended_witness :
    fastMgr.performance_profile = PerformanceProfile.Fast ∧
    ((fastMgr.use_procfs = true →
      adaptive_check_port fastMgr failProcfsEnv 80 "tcp" =
        (failProcfsEnv.procfs_check 80 "tcp", [RCall.procfsCheck 80 "tcp"])) ∧
     adaptive_list_processes fastMgr failProcfsEnv 0 "tcp" =
       (fastMgr, failProcfsEnv.legacy_list "tcp", [RCall.legacyList "tcp"])) :=
  ⟨rfl, fast_profile_amended fastMgr failProcfsEnv 80 "tcp" 0 rfl⟩

/-- Claim C6: when a protocol's cache entry was last updated strictly less
than the update interval ago, `get_processes` answers from the cache, leaves
the state unchanged and does not invoke the selector. -/
theorem get_processes_fresh_no_selector (st : IncrementalState) (env : SelectorEnv)
    (now : Nat) (protocol : String) (t : Nat)
    (h1 : alLookup st.cache.last_updated protocol = some t)
    (h2 : now - t < st.update_interval) :
    get_processes st env now protocol =
      (Except.ok (st, (alLookup st.cache.processes protocol).getD []), false) := by
  have hs : should_update st now protocol = false := by
    simp only [should_update, h1, decide_eq_false_iff_not]
    omega
  simp [get_processes, hs]

/-- Witness for claim C6: a tcp entry updated at tick 10 read at tick 12
with a 5-tick interval is served from the cache without a selector call. -/
theorem get_processes_fresh_no_selector_witness :
    alLookup freshState.cache.last_updated "tcp" = some 10 ∧
    12 - 10 < freshState.update_interval ∧
    get_processes freshState emptyEnv 12 "tcp" =
      (Except.ok (freshState, (alLookup freshState.cache.processes "tcp").getD []), false) :=
  ⟨by decide, by decide,
   get_processes_fresh_no_selector freshState emptyEnv 12 "tcp" 10 (by decide) (by decide)⟩

/-- Claim C10: on a stale or absent entry, when the selector's `check_port`
finds a process, `get_port` stores it in the port index and sets the
per-protocol last-updated timestamp to now, so an immediately following
`get_processes` call treats the entry as fresh and returns the previous
(possibly empty) record list without invoking the selector. -/
theorem get_port_sets_freshness (st : IncrementalState) (env : SelectorEnv)
    (now port : Nat) (protocol : String) (p : ProcessInfo)
    (hstale : ∀ t, alLookup st.cache.last_updated protocol = some t →
      st.update_interval ≤ now - t)
    (hcheck : env.check_result port protocol = Except.ok (some p))
    (hpos : 0 < st.update_interval) :
    ∃ st', get_port st env now port protocol = (Except.ok (st', some p), true) ∧
      alLookup st'.cache.last_updated protocol = some now ∧
      alLookup st'.cache.process_map port = some p ∧
      st'.cache.processes = st.cache.processes ∧
      st'.update_interval = st.update_interval ∧
      ∀ env2, get_processes st' env2 now protocol =
        (Except.ok (st', (alLookup st.cache.processes protocol).getD []), false) := by
  have hfresh : (match alLookup st.cache.last_updated protocol with
      | some cached_time => decide (now - cached_time < st.update_interval)
      | none => false) = false := by
    cases hl : alLookup st.cache.last_updated protocol with
    | none => rfl
    | some t =>
      have := hstale t hl
      simp only [decide_eq_false_iff_not]
      omega
  refine ⟨{ st with cache := { st.cache with
      process_map := alInsert st.cache.process_map port p,
      last_updated := alInsert st.cache.last_updated protocol now } }, ?_, ?_, ?_, rfl, rfl, ?_⟩
  · simp only [get_port, hfresh, Bool.false_eq_true, if_false, hcheck]
  · exact alLookup_alInsert_self _ _ _
  · exact alLookup_alInsert_self _ _ _
  · intro env2
    have hs : should_update { st with cache := { st.cache with
        process_map := alInsert st.cache.process_map port p,
        last_updated := alInsert st.cache.last_updated protocol now } } now protocol
        = false := by
      simp only [should_update, alLookup_alInsert_self, decide_eq_false_iff_not]
      omega
    simp [get_processes, hs]

/-- Witness for claim C10 on an absent entry with a successful port check. -/
theorem get_port_sets_freshness_witness :
    (∀ t, alLookup fullLogState.cache.last_updated "tcp" = some t →
      fullLogState.update_interval ≤ 0 - t) ∧
    onePortEnv.check_result 80 "tcp" = Except.ok (some samplePi) ∧
    0 < fullLogState.update_interval ∧
    (∃ st', get_port fullLogState onePortEnv 0 80 "tcp" = (Except.ok (st', some samplePi), true) ∧
      alLookup st'.cache.last_updated "tcp" = some 0 ∧
      alLookup st'.cache.process_map 80 = some samplePi ∧
      st'.cache.processes = fullLogState.cache.processes ∧
      st'.update_interval = fullLogState.update_interval ∧
      ∀ env2, get_processes st' env2 0 "tcp" =
        (Except.ok (st', (alLookup fullLogState.cache.processes "tcp").getD []), false)) :=
  ⟨fun t ht => by simp [fullLogState, alLookup] at ht, rfl, by decide,
   get_port_sets_freshness fullLogState onePortEnv 0 80 "tcp" samplePi
     (fun t ht => by simp [fullLogState, alLookup] at ht) rfl (by decide)⟩

/-- Counterexample to claim C3: appending a one-event batch to a change log
holding exactly 1000 entries triggers the trim, which leaves 501 entries,
not 500. -/
theorem change_log_trim_counterexample :
    ∃ st', update_processes fullLogState onePortEnv 0 "tcp" = Except.ok st' ∧
      st'.cache.change_log.length = 501 := by
  obtain ⟨st', hok, hlog⟩ :=
    update_processes_change_log fullLogState onePortEnv 0 "tcp" [samplePi] rfl
  refine ⟨st', hok, ?_⟩
  rw [hlog]
  have hch : compute_changes 0
      ((alLookup fullLogState.cache.processes "tcp").getD []) [samplePi] =
      [⟨0, ChangeType.Added, samplePi⟩] := rfl
  rw [hch]
  simp only [append_and_trim]
  have hlen : (fullLogState.cache.change_log ++
      [(⟨0, ChangeType.Added, samplePi⟩ : PortChange)]).length = 1001 := by
    have h0 : fullLogState.cache.change_log = List.replicate 1000 sampleEv := rfl
    rw [h0, List.length_append, List.length_replicate, List.length_singleton]
  rw [if_pos (by rw [hlen]; omega), List.length_drop, hlen]

/-- Claim C3 (amended): when the appended batch pushes the change log beyond
1000 entries the trim drops the oldest 500 in one batch, leaving exactly
(previous length + batch length − 500) entries, which is always at least
501 (never below); with no overflow the log is the plain append; and as long
as the log starts at or below 1000 and each batch holds at most 500 events
the log never exceeds 1000.  Both `update_processes` and `background_update`
apply exactly this append-and-trim step to the change log. -/
theorem change_log_trim_amended (log changes : List PortChange) :
    (1000 < (log ++ changes).length →
      append_and_trim log changes = (log ++ changes).drop 500 ∧
      (append_and_trim log changes).length = log.length + changes.length - 500 ∧
      501 ≤ (append_and_trim log changes).length) ∧
    ((log ++ changes).length ≤ 1000 → append_and_trim log changes = log ++ changes) ∧
    (log.length ≤ 1000 → changes.length ≤ 500 →
      (append_and_trim log changes).length ≤ 1000) ∧
    (∀ st env now protocol current st',
      SelectorEnv.list_result env protocol = Except.ok current →
      update_processes st env now protocol = Except.ok st' →
      st'.cache.change_log = append_and_trim st.cache.change_log
        (compute_changes now ((alLookup st.cache.processes protocol).getD []) current)) ∧
    (∀ st env now protocol current st',
      SelectorEnv.list_result env protocol = Except.ok current →
      background_update st env now protocol = Except.ok st' →
      st'.cache.change_log = append_and_trim st.cache.change_log
        (compute_changes now ((alLookup st.cache.processes protocol).getD []) current)) := by
  have hlen : (log ++ changes).length = log.length + changes.length :=
    List.length_append _ _
  refine ⟨?_, ?_, ?_, ?_, ?_⟩
  · intro hgt
    have hif : append_and_trim log changes = (log ++ changes).drop 500 := by
      simp only [append_and_trim]
      rw [if_pos hgt]
    refine ⟨hif, ?_, ?_⟩
    · rw [hif, List.length_drop, hlen]
    · rw [hif, List.length_drop]
      omega
  · intro hle
    simp only [append_and_trim]
    rw [if_neg (by omega)]
  · intro h1 h2
    simp only [append_and_trim]
    by_cases hgt : 1000 < (log ++ changes).length
    · rw [if_pos hgt, List.length_drop]
      omega
    · rw [if_neg hgt]
      omega
  · intro st env now protocol current st' h hok
    obtain ⟨st'', hok', hlog⟩ := update_processes_change_log st env now protocol current h
    rw [hok] at hok'
    cases hok'
    exact hlog
  · intro st env now protocol current st' h hok
    obtain ⟨st'', hok', hlog⟩ := background_update_change_log st env now protocol current h
    rw [hok] at hok'
    cases hok'
    exact hlog

/-! ## Hex parsing lemmas -/

theorem charDigit_lt (r : Nat) (c : Char) (d : Nat) (h : charDigit r c = some d) :
    d < r := by
  simp only [charDigit] at h
  split at h
  · split at h
    · cases h
      assumption
    · exact absurd h (by simp)
  · exact absurd h (by simp)

theorem charDigit_plus (r : Nat) : charDigit r '+' = none := rfl

theorem charDigit_minus (r : Nat) : charDigit r '-' = none := rfl

theorem charDigit_ne_sign (r : Nat) (c : Char) (d : Nat) (h : charDigit r c = some d) :
    ¬(c = '+') ∧ ¬(c = '-') := by
  constructor
  · rintro rfl
    rw [charDigit_plus] at h
    exact absurd h (by simp)
  · rintro rfl
    rw [charDigit_minus] at h
    exact absurd h (by simp)

theorem rustParse_two_hex (a b : Char) (da db : Nat)
    (ha : charDigit 16 a = some da) (hb : charDigit 16 b = some db) :
    rustParseUnsigned 16 255 [a, b] = some (da * 16 + db) := by
  have hna := charDigit_ne_sign 16 a da ha
  have hda := charDigit_lt 16 a da ha
  have hdb := charDigit_lt 16 b db hb
  simp only [rustParseUnsigned, if_neg hna.1, if_neg hna.2]
  simp only [List.isEmpty, foldDigits, ha, hb]
  have hv : (0 * 16 + da) * 16 + db = da * 16 + db := by ring
  rw [hv]
  rw [if_neg (show ¬(da * 16 + db > 255) by omega)]
  simp

theorem parse_ipv4_eight (c0 c1 c2 c3 c4 c5 c6 c7 : Char)
    (hdig : ∀ c ∈ [c0, c1, c2, c3, c4, c5, c6, c7], (charDigit 16 c).isSome) :
    parse_ipv4_address [c0, c1, c2, c3, c4, c5, c6, c7] =
      (if hexNatVal [c0, c1, c2, c3, c4, c5, c6, c7] = 0 then "*"
       else
         toString (hexNatVal [c0, c1, c2, c3, c4, c5, c6, c7] % 256) ++ "." ++
         toString (hexNatVal [c0, c1, c2, c3, c4, c5, c6, c7] / 256 % 256) ++ "." ++
         toString (hexNatVal [c0, c1, c2, c3, c4, c5, c6, c7] / 65536 % 256) ++ "." ++
         toString (hexNatVal [c0, c1, c2, c3, c4, c5, c6, c7] / 16777216 % 256)) := by
  obtain ⟨d0, hd0⟩ := Option.isSome_iff_exists.mp (hdig c0 (by simp))
  obtain ⟨d1, hd1⟩ := Option.isSome_iff_exists.mp (hdig c1 (by simp))
  obtain ⟨d2, hd2⟩ := Option.isSome_iff_exists.mp (hdig c2 (by simp))
  obtain ⟨d3, hd3⟩ := Option.isSome_iff_exists.mp (hdig c3 (by simp))
  obtain ⟨d4, hd4⟩ := Option.isSome_iff_exists.mp (hdig c4 (by simp))
  obtain ⟨d5, hd5⟩ := Option.isSome_iff_exists.mp (hdig c5 (by simp))
  obtain ⟨d6, hd6⟩ := Option.isSome_iff_exists.mp (hdig c6 (by simp))
  obtain ⟨d7, hd7⟩ := Option.isSome_iff_exists.mp (hdig c7 (by simp))
  have hl0 := charDigit_lt 16 c0 d0 hd0
  have hl1 := charDigit_lt 16 c1 d1 hd1
  have hl2 := charDigit_lt 16 c2 d2 hd2
  have hl3 := charDigit_lt 16 c3 d3 hd3
  have hl4 := charDigit_lt 16 c4 d4 hd4
  have hl5 := charDigit_lt 16 c5 d5 hd5
  have hl6 := charDigit_lt 16 c6 d6 hd6
  have hl7 := charDigit_lt 16 c7 d7 hd7
  have hb0 := rustParse_two_hex c0 c1 d0 d1 hd0 hd1
  have hb1 := rustParse_two_hex c2 c3 d2 d3 hd2 hd3
  have hb2 := rustParse_two_hex c4 c5 d4 d5 hd4 hd5
  have hb3 := rustParse_two_hex c6 c7 d6 d7 hd6 hd7
  have hbytes : ((List.range 4).map fun i =>
      (rustParseUnsigned 16 255
        (([c0, c1, c2, c3, c4, c5, c6, c7].drop (i * 2)).take 2)).getD 0)
      = [d0 * 16 + d1, d2 * 16 + d3, d4 * 16 + d5, d6 * 16 + d7] := by
    have hr : List.range 4 = [0, 1, 2, 3] := rfl
    rw [hr, List.map_cons, List.map_cons, List.map_cons, List.map_cons, List.map_nil]
    have e0 : ([c0, c1, c2, c3, c4, c5, c6, c7].drop (0 * 2)).take 2 = [c0, c1] := rfl
    have e1 : ([c0, c1, c2, c3, c4, c5, c6, c7].drop (1 * 2)).take 2 = [c2, c3] := rfl
    have e2 : ([c0, c1, c2, c3, c4, c5, c6, c7].drop (2 * 2)).take 2 = [c4, c5] := rfl
    have e3 : ([c0, c1, c2, c3, c4, c5, c6, c7].drop (3 * 2)).take 2 = [c6, c7] := rfl
    rw [e0, e1, e2, e3, hb0, hb1, hb2, hb3]
    rfl
  have hval : hexNatVal [c0, c1, c2, c3, c4, c5, c6, c7] =
      (d0 * 16 + d1) * 16777216 + (d2 * 16 + d3) * 65536 +
        (d4 * 16 + d5) * 256 + (d6 * 16 + d7) := by
    simp only [hexNatVal, List.foldl_cons, List.foldl_nil, hd0, hd1, hd2, hd3,
      hd4, hd5, hd6, hd7, Option.getD_some]
    ring
  simp only [parse_ipv4_address]
  rw [if_neg (show ¬(([c0, c1, c2, c3, c4, c5, c6, c7] : List Char).length ≠ 8) by simp)]
  rw [hbytes]
  by_cases hz : hexNatVal [c0, c1, c2, c3, c4, c5, c6, c7] = 0
  · rw [if_pos hz]
    rw [hval] at hz
    have h0 : d0 * 16 + d1 = 0 := by omega
    have h1 : d2 * 16 + d3 = 0 := by omega
    have h2 : d4 * 16 + d5 = 0 := by omega
    have h3 : d6 * 16 + d7 = 0 := by omega
    rw [if_pos (by rw [h0, h1, h2, h3])]
  · rw [if_neg hz]
    have hne : ¬([d0 * 16 + d1, d2 * 16 + d3, d4 * 16 + d5, d6 * 16 + d7] =
        ([0, 0, 0, 0] : List Nat)) := by
      intro hh
      apply hz
      simp only [List.cons.injEq, and_true] at hh
      rw [hval]
      omega
    rw [if_neg hne]
    have g0 : ([d0 * 16 + d1, d2 * 16 + d3, d4 * 16 + d5, d6 * 16 + d7].getD 0 0) =
        d0 * 16 + d1 := rfl
    have g1 : ([d0 * 16 + d1, d2 * 16 + d3, d4 * 16 + d5, d6 * 16 + d7].getD 1 0) =
        d2 * 16 + d3 := rfl
    have g2 : ([d0 * 16 + d1, d2 * 16 + d3, d4 * 16 + d5, d6 * 16 + d7].getD 2 0) =
        d4 * 16 + d5 := rfl
    have g3 : ([d0 * 16 + d1, d2 * 16 + d3, d4 * 16 + d5, d6 * 16 + d7].getD 3 0) =
        d6 * 16 + d7 := rfl
    have m0 : hexNatVal [c0, c1, c2, c3, c4, c5, c6, c7] % 256 = d6 * 16 + d7 := by
      rw [hval]; omega
    have m1 : hexNatVal [c0, c1, c2, c3, c4, c5, c6, c7] / 256 % 256 = d4 * 16 + d5 := by
      rw [hval]; omega
    have m2 : hexNatVal [c0, c1, c2, c3, c4, c5, c6, c7] / 65536 % 256 = d2 * 16 + d3 := by
      rw [hval]; omega
    have m3 : hexNatVal [c0, c1, c2, c3, c4, c5, c6, c7] / 16777216 % 256 =
        d0 * 16 + d1 := by
      rw [hval]; omega
    rw [g0, g1, g2, g3, m0, m1, m2, m3]

/-- Claim C2: for every 8-hex-character input, `parse_ipv4_address` renders
the four bytes of the written hex value in reversed (little-endian) byte
order, with the all-zero value rendered as the wildcard; `"00000000"` gives
`"*"`, `"0100007F"` gives `"127.0.0.1"`, and any input whose length is not 8
gives `"*"`. -/
theorem parse_ipv4_reversed_bytes :
    (∀ hex : List Char, hex.length = 8 → (∀ c ∈ hex, (charDigit 16 c).isSome) →
      parse_ipv4_address hex =
        (if hexNatVal hex = 0 then "*"
         else
           toString (hexNatVal hex % 256) ++ "." ++
           toString (hexNatVal hex / 256 % 256) ++ "." ++
           toString (hexNatVal hex / 65536 % 256) ++ "." ++
           toString (hexNatVal hex / 16777216 % 256))) ∧
    parse_ipv4_address "00000000".toList = "*" ∧
    parse_ipv4_address "0100007F".toList = "127.0.0.1" ∧
    (∀ s : List Char, s.length ≠ 8 → parse_ipv4_address s = "*") := by
  refine ⟨?_, rfl, rfl, ?_⟩
  · intro hex hlen hdig
    rcases hex with _ | ⟨c0, hex⟩
    · simp at hlen
    rcases hex with _ | ⟨c1, hex⟩
    · simp at hlen
    rcases hex with _ | ⟨c2, hex⟩
    · simp at hlen
    rcases hex with _ | ⟨c3, hex⟩
    · simp at hlen
    rcases hex with _ | ⟨c4, hex⟩
    · simp at hlen
    rcases hex with _ | ⟨c5, hex⟩
    · simp at hlen
    rcases hex with _ | ⟨c6, hex⟩
    · simp at hlen
    rcases hex with _ | ⟨c7, hex⟩
    · simp at hlen
    rcases hex with _ | ⟨c8, hex⟩
    · exact parse_ipv4_eight c0 c1 c2 c3 c4 c5 c6 c7 hdig
    · simp at hlen
  · intro s hs
    simp only [parse_ipv4_address]
    rw [if_pos hs]

/-! ## Kernel-table and tool-chain record lemmas -/

theorem tcpLineRecord_inode (b : Bool) (line : String) (p : ProcessInfo)
    (h : tcpLineRecord b line = some p) : p.inode.isSome = true := by
  simp only [tcpLineRecord] at h
  split at h
  · exact absurd h (by simp)
  · split at h
    · split at h
      · split at h
        · cases h
          rfl
        · exact absurd h (by simp)
      · exact absurd h (by simp)
    · exact absurd h (by simp)

theorem udpLineRecord_inode (b : Bool) (line : String) (p : ProcessInfo)
    (h : udpLineRecord b line = some p) : p.inode.isSome = true := by
  simp only [udpLineRecord] at h
  split at h
  · exact absurd h (by simp)
  · split at h
    · split at h
      · cases h
        rfl
      · exact absurd h (by simp)
    · exact absurd h (by simp)

theorem parse_tcp_content_inode (content : String) (b : Bool) (ps : List ProcessInfo)
    (h : parse_tcp_content content b = Except.ok ps) :
    ∀ p ∈ ps, p.inode.isSome = true := by
  intro p hp
  simp only [parse_tcp_content, Except.ok.injEq] at h
  rw [← h] at hp
  rcases List.mem_filterMap.1 hp with ⟨line, _, hline⟩
  exact tcpLineRecord_inode b line p hline

theorem parse_udp_content_inode (content : String) (b : Bool) (ps : List ProcessInfo)
    (h : parse_udp_content content b = Except.ok ps) :
    ∀ p ∈ ps, p.inode.isSome = true := by
  intro p hp
  simp only [parse_udp_content, Except.ok.injEq] at h
  rw [← h] at hp
  rcases List.mem_filterMap.1 hp with ⟨line, _, hline⟩
  exact udpLineRecord_inode b line p hline

theorem read_tcp_connections_inode (files : ProcfsFiles) (ps : List ProcessInfo)
    (h : read_tcp_connections files = Except.ok ps) :
    ∀ p ∈ ps, p.inode.isSome = true := by
  intro p hp
  simp only [read_tcp_connections] at h
  split at h
  · exact absurd h (by simp)
  case _ ps1 h1 =>
    split at h
    · exact absurd h (by simp)
    case _ ps2 h2 =>
      cases h
      rw [List.mem_filter] at hp
      rcases List.mem_append.1 hp.1 with hm | hm
      · revert h1
        split
        · intro h1
          exact parse_tcp_content_inode _ _ _ h1 p hm
        · intro h1
          cases h1
          simp at hm
      · revert h2
        split
        · intro h2
          exact parse_tcp_content_inode _ _ _ h2 p hm
        · intro h2
          cases h2
          simp at hm

theorem read_udp_connections_inode (files : ProcfsFiles) (ps : List ProcessInfo)
    (h : read_udp_connections files = Except.ok ps) :
    ∀ p ∈ ps, p.inode.isSome = true := by
  intro p hp
  simp only [read_udp_connections] at h
  split at h
  · exact absurd h (by simp)
  case _ ps1 h1 =>
    split at h
    · exact absurd h (by simp)
    case _ ps2 h2 =>
      cases h
      rcases List.mem_append.1 hp with hm | hm
      · revert h1
        split
        · intro h1
          exact parse_udp_content_inode _ _ _ h1 p hm
        · intro h1
          cases h1
          simp at hm
      · revert h2
        split
        · intro h2
          exact parse_udp_content_inode _ _ _ h2 p hm
        · intro h2
          cases h2
          simp at hm

theorem update_process_details_inode (s : ProcfsState) (rd : Nat → ProcessDetails)
    (now : Nat) (p : ProcessInfo) :
    (update_process_details s rd now p).2.inode = p.inode := by
  simp only [update_process_details]
  split <;> rfl

theorem enrichStep_snd (itp : List (Nat × Nat)) (rd : Nat → ProcessDetails) (now : Nat)
    (acc : ProcfsState × List ProcessInfo) (p : ProcessInfo) :
    ∃ q, (enrichStep itp rd now acc p).2 = acc.2 ++ [q] ∧ q.inode = p.inode := by
  cases hpi : p.inode with
  | none => exact ⟨p, by simp [enrichStep, hpi], hpi⟩
  | some i =>
    cases hl : alLookup itp i with
    | none => exact ⟨p, by simp [enrichStep, hpi, hl], hpi⟩
    | some pid =>
      refine ⟨(update_process_details acc.1 rd now { p with pid := pid }).2,
        by simp [enrichStep, hpi, hl], ?_⟩
      rw [update_process_details_inode]
      exact hpi

theorem enrich_foldl_mem (itp : List (Nat × Nat)) (rd : Nat → ProcessDetails) (now : Nat) :
    ∀ (ps : List ProcessInfo) (acc : ProcfsState × List ProcessInfo) (q : ProcessInfo),
      q ∈ (ps.foldl (enrichStep itp rd now) acc).2 →
      q ∈ acc.2 ∨ ∃ p ∈ ps, q.inode = p.inode := by
  intro ps
  induction ps with
  | nil =>
    intro acc q h
    exact Or.inl h
  | cons p rest ih =>
    intro acc q h
    rw [List.foldl_cons] at h
    rcases ih _ q h with hacc | ⟨p', hp', hio⟩
    · obtain ⟨q', hq', hio'⟩ := enrichStep_snd itp rd now acc p
      rw [hq'] at hacc
      rcases List.mem_append.1 hacc with h1 | h1
      · exact Or.inl h1
      · rcases List.mem_singleton.1 h1 with rfl
        exact Or.inr ⟨p, List.mem_cons_self _ _, hio'⟩
    · exact Or.inr ⟨p', List.mem_cons_of_mem _ hp', hio⟩

theorem enrich_with_process_info_spec (s : ProcfsState) (itp : List (Nat × Nat))
    (rd : Nat → ProcessDetails) (now : Nat) (ps : List ProcessInfo)
    (hin : ∀ p ∈ ps, p.inode.isSome = true) :
    ∀ q ∈ (enrich_with_process_info s itp rd now ps).2,
      q.pid ≠ 0 ∧ q.inode.isSome = true := by
  intro q hq
  simp only [enrich_with_process_info] at hq
  rw [List.mem_filter] at hq
  obtain ⟨hmem, hpid⟩ := hq
  refine ⟨by simpa using hpid, ?_⟩
  rcases enrich_foldl_mem itp rd now ps (s, []) q hmem with h | ⟨p, hp, hio⟩
  · simp at h
  · rw [hio]
    exact hin p hp

theorem length_filterMap_isSome {α β : Type} (f : α → Option β) (l : List α) :
    (l.filterMap f).length = l.countP fun a => (f a).isSome := by
  induction l with
  | nil => rfl
  | cons a rest ih =>
    rw [List.filterMap_cons, List.countP_cons]
    cases hf : f a with
    | none => simp [hf, ih]
    | some b => simp [hf, ih]

/-- Claim C7: `parse_tcp_content` never fails, and produces exactly one
record per non-header line with at least 10 whitespace-delimited fields, a
local-address field decodable as HEXADDR:HEXPORT, state field `"0A"` and a
numeric inode field; every other line is silently skipped. -/
theorem parse_tcp_content_line_filter (content : String) (is_ipv6 : Bool) :
    ∃ records, parse_tcp_content content is_ipv6 = Except.ok records ∧
      records = ((rustLines content).drop 1).filterMap (tcpLineRecord is_ipv6) ∧
      records.length = ((rustLines content).drop 1).countP
        (fun line => (tcpLineRecord is_ipv6 line).isSome) ∧
      (∀ line : String, (tcpLineRecord is_ipv6 line).isSome = true ↔
        (10 ≤ (splitWhitespace line).length ∧
         (parse_address ((splitWhitespace line).getD 1 "").toList is_ipv6).isSome = true ∧
         (splitWhitespace line).getD 3 "" = "0A" ∧
         (rustParseUnsigned 10 18446744073709551615
           ((splitWhitespace line).getD 9 "").toList).isSome = true)) := by
  refine ⟨_, rfl, rfl, length_filterMap_isSome _ _, ?_⟩
  intro line
  simp only [tcpLineRecord]
  by_cases hlen : (splitWhitespace line).length < 10
  · rw [if_pos hlen]
    simp only [Option.isSome_none, Bool.false_eq_true, false_iff]
    rintro ⟨h10, _⟩
    omega
  · rw [if_neg hlen]
    have h10 := le_of_not_lt hlen
    cases hpa : parse_address ((splitWhitespace line).getD 1 "").toList is_ipv6 with
    | none => simp [hpa]
    | some pr =>
      obtain ⟨address, port⟩ := pr
      by_cases hst : (splitWhitespace line).getD 3 "" = "0A"
      · cases hin : rustParseUnsigned 10 18446744073709551615
            ((splitWhitespace line).getD 9 "").toList with
        | none => simp [hpa, hst, hin, h10]
        | some v => simp [hpa, hst, hin, h10]
      · rw [show (match (some (address, port) : Option (String × Nat)) with
            | some (address, port) =>
              if (splitWhitespace line).getD 3 "" = "0A" then
                match rustParseUnsigned 10 18446744073709551615
                    ((splitWhitespace line).getD 9 "").toList with
                | some inode_num =>
                  some (⟨0, "", "", "", "", port, "tcp", address,
                    some inode_num⟩ : ProcessInfo)
                | none => none
              else none
            | none => none) =
            (if (splitWhitespace line).getD 3 "" = "0A" then
              match rustParseUnsigned 10 18446744073709551615
                  ((splitWhitespace line).getD 9 "").toList with
              | some inode_num =>
                some (⟨0, "", "", "", "", port, "tcp", address,
                  some inode_num⟩ : ProcessInfo)
              | none => none
            else none) from rfl]
        rw [if_neg hst]
        simp only [Option.isSome_none, Bool.false_eq_true, false_iff]
        rintro ⟨-, -, h3, -⟩
        exact hst h3

/-- Witness for claim C7 on a sample table with a header, one valid line and
one malformed line: exactly the valid line becomes a record. -/
theorem parse_tcp_content_line_filter_witness :
    (∃ records, parse_tcp_content tcpSample false = Except.ok records ∧
      records = ((rustLines tcpSample).drop 1).filterMap (tcpLineRecord false) ∧
      records.length = ((rustLines tcpSample).drop 1).countP
        (fun line => (tcpLineRecord false line).isSome) ∧
      (∀ line : String, (tcpLineRecord false line).isSome = true ↔
        (10 ≤ (splitWhitespace line).length ∧
         (parse_address ((splitWhitespace line).getD 1 "").toList false).isSome = true ∧
         (splitWhitespace line).getD 3 "" = "0A" ∧
         (rustParseUnsigned 10 18446744073709551615
           ((splitWhitespace line).getD 9 "").toList).isSome = true))) ∧
    parse_tcp_content tcpSample false =
      Except.ok [⟨0, "", "", "", "", 8080, "tcp", "127.0.0.1", some 12345⟩] :=
  ⟨parse_tcp_content_line_filter tcpSample false, rfl⟩

/-- Claim C9: every record returned by the kernel-table resolver's
`list_processes` has a nonzero pid (orphaned sockets are dropped) and a
present socket inode, while every record built by the tool-chain resolver's
`parse_lsof_output` has no socket inode. -/
theorem resolver_record_invariants :
    (∀ (s : ProcfsState) (files : ProcfsFiles) (inode_to_pid : List (Nat × Nat))
       (readDetails : Nat → ProcessDetails) (now : Nat) (protocol : String)
       (s' : ProcfsState) (records : List ProcessInfo),
      procfs_list_processes s files inode_to_pid readDetails now protocol =
        Except.ok (s', records) →
      ∀ p ∈ records, p.pid ≠ 0 ∧ p.inode.isSome = true) ∧
    (∀ (output : String) (details : Nat → Option LsofDetails) (ps : List ProcessInfo),
      parse_lsof_output output details = Except.ok ps →
      ∀ p ∈ ps, p.inode = none) := by
  constructor
  · intro s files inode_to_pid readDetails now protocol s' records h
    simp only [procfs_list_processes] at h
    split at h
    · exact absurd h (by simp)
    case _ tcp htcp =>
      split at h
      · exact absurd h (by simp)
      case _ udp hudp =>
        have htcpIn : ∀ p ∈ tcp, p.inode.isSome = true := by
          revert htcp
          split
          · intro htcp
            exact read_tcp_connections_inode files tcp htcp
          · intro htcp
            cases htcp
            intro p hp
            simp at hp
        have hudpIn : ∀ p ∈ udp, p.inode.isSome = true := by
          revert hudp
          split
          · intro hudp
            exact read_udp_connections_inode files udp hudp
          · intro hudp
            cases hudp
            intro p hp
            simp at hp
        have hall : ∀ p ∈ tcp ++ udp, p.inode.isSome = true := by
          intro p hp
          rcases List.mem_append.1 hp with hm | hm
          · exact htcpIn p hm
          · exact hudpIn p hm
        have hrec : records =
            (enrich_with_process_info s inode_to_pid readDetails now (tcp ++ udp)).2 := by
          cases h
          rfl
        rw [hrec]
        exact enrich_with_process_info_spec s inode_to_pid readDetails now
          (tcp ++ udp) hall
  · intro output details ps h
    simp only [parse_lsof_output, Except.ok.injEq] at h
    intro p hp
    rw [← h] at hp
    rcases List.mem_map.1 hp with ⟨b, _, rfl⟩
    rfl

/-- Witness for claim C9: with no table files and an empty inode map the
kernel-table resolver returns no records, and an empty `lsof` output yields
no records either; both hypotheses are discharged concretely. -/
theorem resolver_record_invariants_witness :
    procfs_list_processes ⟨[], 0, 2⟩ ⟨none, none, none, none⟩ []
      (fun _ => ⟨"", "", "", ""⟩) 0 "tcp" = Except.ok (⟨[], 0, 2⟩, []) ∧
    parse_lsof_output "" (fun _ => none) = Except.ok [] ∧
    (∀ p ∈ ([] : List ProcessInfo), p.pid ≠ 0 ∧ p.inode.isSome = true) ∧
    (∀ p ∈ ([] : List ProcessInfo), p.inode = none) :=
  ⟨rfl, rfl,
   resolver_record_invariants.1 ⟨[], 0, 2⟩ ⟨none, none, none, none⟩ []
     (fun _ => ⟨"", "", "", ""⟩) 0 "tcp" ⟨[], 0, 2⟩ [] rfl,
   resolver_record_invariants.2 "" (fun _ => none) [] rfl⟩

/-- Witness for claim C2 at the loopback input: the hypotheses hold for the
characters of `"0100007F"` and the general clause renders `"127.0.0.1"`. -/
theorem parse_ipv4_reversed_bytes_witness :
    "0100007F".toList.length = 8 ∧
    (∀ c ∈ "0100007F".toList, (charDigit 16 c).isSome) ∧
    parse_ipv4_address "0100007F".toList =
      (if hexNatVal "0100007F".toList = 0 then "*"
       else
         toString (hexNatVal "0100007F".toList % 256) ++ "." ++
         toString (hexNatVal "0100007F".toList / 256 % 256) ++ "." ++
         toString (hexNatVal "0100007F".toList / 65536 % 256) ++ "." ++
         toString (hexNatVal "0100007F".toList / 16777216 % 256)) :=
  ⟨rfl, by decide,
   parse_ipv4_reversed_bytes.1 "0100007F".toList rfl (by decide)⟩

/-- Witness for the amended claim C3 at a 1000-entry log and a one-event
batch: the trim fires and leaves 501 entries. -/
theorem change_log_trim_amended_witness :
    1000 < (List.replicate 1000 sampleEv ++ [sampleEv]).length ∧
    (append_and_trim (List.replicate 1000 sampleEv) [sampleEv]).length = 501 := by
  have h := change_log_trim_amended (List.replicate 1000 sampleEv) [sampleEv]
  have hgt : 1000 < (List.replicate 1000 sampleEv ++ [sampleEv]).length := by
    rw [List.length_append, List.length_replicate, List.length_singleton]
    omega
  refine ⟨hgt, ?_⟩
  have := (h.1 hgt).2.1
  rw [this, List.length_replicate, List.length_singleton]

end Kilar
